import Mathlib

/-!
Verification of the coordinate-transform and resampling utilities of
batchgenerators/augmentations/utils.py, shallowly embedded in Lean.

Arrays are embedded as functions over Fin-indexed domains or as lists.
The external numerical backends (numpy broadcasting and meshgrid, the
resize backend of skimage, the connected-component labeling oracle of
scipy) are either modelled from their documented semantics or taken as
explicit function parameters that the theorems quantify over.
-/

/-- A coordinate field of shape [N, *spatial]: the spatial shape together
with the per-axis data, indexed by axis number and a multi-index. -/
structure CoordField (N : ℕ) where
  shape : Fin N → ℕ
  data : Fin N → (Fin N → ℕ) → ℚ

/-- Documented semantics of np.meshgrid over arange(shape d) with
indexing ij: component d at multi-index idx equals idx d. -/
def meshgrid_ij (N : ℕ) (shape : Fin N → ℕ) : CoordField N :=
  { shape := shape, data := fun d idx => (idx d : ℚ) }

/-- create_zero_centered_coordinate_mesh: build the meshgrid over the
shape, then shift axis d by (shape d - 1)/2. -/
def create_zero_centered_coordinate_mesh (N : ℕ) (shape : Fin N → ℕ) : CoordField N :=
  { shape := shape,
    data := fun d idx => (meshgrid_ij N shape).data d idx - ((shape d : ℚ) - 1) / 2 }

/-- uncenter_coords: a fresh field (deep copy) with (extent - 1)/2 added
back onto every axis, the extent being read off the field itself. -/
def uncenter_coords (N : ℕ) (c : CoordField N) : CoordField N :=
  { shape := c.shape,
    data := fun d idx => c.data d idx + ((c.shape d : ℚ) - 1) / 2 }

/-- scale_coords called with a scalar scale: numpy multiplies every entry
of the field by the scalar. Spatial rank two is used throughout (the
field has shape [n, s0, s1]). -/
def scale_coords_scalar (n s0 s1 : ℕ) (coords : Fin n → Fin s0 → Fin s1 → ℚ)
    (scale : ℚ) : Fin n → Fin s0 → Fin s1 → ℚ :=
  fun d i j => coords d i j * scale

/-- scale_coords called with a one-dimensional scale array: by the
documented numpy broadcasting rules, the scale vector is aligned with the
trailing (last) axis of the field, so it must have length s1 and entry
[d, i, j] is multiplied by scale j. -/
def scale_coords_seq (n s0 s1 : ℕ) (coords : Fin n → Fin s0 → Fin s1 → ℚ)
    (scale : Fin s1 → ℚ) : Fin n → Fin s0 → Fin s1 → ℚ :=
  fun d i j => coords d i j * scale j

/-- C5: create_zero_centered_coordinate_mesh returns a field of shape
[N, *shape] whose entry at axis d and multi-index idx equals
idx d - (shape d - 1)/2, for every shape; in particular for shape (4,4)
the axis-0 entry at (0,0) is -1.5 and at (3,3) is 1.5. -/
theorem C5_mesh_entries :
    (∀ (N : ℕ) (shape : Fin N → ℕ),
      (create_zero_centered_coordinate_mesh N shape).shape = shape ∧
      ∀ (d : Fin N) (idx : Fin N → ℕ),
        (create_zero_centered_coordinate_mesh N shape).data d idx
          = (idx d : ℚ) - ((shape d : ℚ) - 1) / 2) ∧
    (create_zero_centered_coordinate_mesh 2 ![4, 4]).data 0 (fun _ => 0) = -(3 / 2) ∧
    (create_zero_centered_coordinate_mesh 2 ![4, 4]).data 0 (fun _ => 3) = 3 / 2 := by
  refine ⟨fun N shape => ⟨rfl, fun d idx => rfl⟩, ?_, ?_⟩ <;>
    norm_num [create_zero_centered_coordinate_mesh, meshgrid_ij]

/-- C6: recentering the zero-centered mesh of any shape gives back the
absolute-index mesh: entry [d, idx] equals idx d everywhere, and the
shape is unchanged. -/
theorem C6_uncenter_inverse (N : ℕ) (shape : Fin N → ℕ) (d : Fin N) (idx : Fin N → ℕ) :
    (uncenter_coords N (create_zero_centered_coordinate_mesh N shape)).data d idx
      = (idx d : ℚ) ∧
    (uncenter_coords N (create_zero_centered_coordinate_mesh N shape)).shape = shape := by
  refine ⟨?_, rfl⟩
  simp only [uncenter_coords, create_zero_centered_coordinate_mesh, meshgrid_ij]
  ring

/-- C4 counterexample: with the all-ones field of shape [2, 1, 2] and the
per-axis scale sequence (2, 3), the code multiplies entry [0, 0, 1] by
the last-axis factor 3, not by the axis-0 factor 2 as the claim states. -/
theorem C4_cex :
    scale_coords_seq 2 1 2 (fun _ _ _ => 1) (fun j => if j = 0 then 2 else 3) 0 0 1
      ≠ (fun (_ : Fin 2) (_ : Fin 1) (_ : Fin 2) => (1 : ℚ)) 0 0 1
          * (fun j : Fin 2 => if j = 0 then (2 : ℚ) else 3) 0 := by
  norm_num [scale_coords_seq]

/-- C4 amended: a scalar scale multiplies every entry of the field; a
sequence scale is broadcast by numpy against the last axis, so entry
[d, i, j] of the result is coords d i j * scale j (the sequence must have
the length of the last axis; per-axis scaling along axis 0 does not
happen). -/
theorem C4_scale_broadcast (n s0 s1 : ℕ) (coords : Fin n → Fin s0 → Fin s1 → ℚ)
    (c : ℚ) (scale : Fin s1 → ℚ) (d : Fin n) (i : Fin s0) (j : Fin s1) :
    scale_coords_scalar n s0 s1 coords c d i j = coords d i j * c ∧
    scale_coords_seq n s0 s1 coords scale d i j = coords d i j * scale j :=
  ⟨rfl, rfl⟩

/-- create_matrix_rotation_x_3d: the axis-x rotation matrix, optionally
multiplied on the left by a given matrix (np.dot(matrix, rotation_x)). -/
noncomputable def create_matrix_rotation_x_3d (angle : ℝ)
    (matrix : Option (Matrix (Fin 3) (Fin 3) ℝ)) : Matrix (Fin 3) (Fin 3) ℝ :=
  let rotation_x : Matrix (Fin 3) (Fin 3) ℝ :=
    !![1, 0, 0; 0, Real.cos angle, -Real.sin angle; 0, Real.sin angle, Real.cos angle]
  match matrix with
  | none => rotation_x
  | some m => m * rotation_x

/-- create_matrix_rotation_y_3d, analogous to the x version. -/
noncomputable def create_matrix_rotation_y_3d (angle : ℝ)
    (matrix : Option (Matrix (Fin 3) (Fin 3) ℝ)) : Matrix (Fin 3) (Fin 3) ℝ :=
  let rotation_y : Matrix (Fin 3) (Fin 3) ℝ :=
    !![Real.cos angle, 0, Real.sin angle; 0, 1, 0; -Real.sin angle, 0, Real.cos angle]
  match matrix with
  | none => rotation_y
  | some m => m * rotation_y

/-- create_matrix_rotation_z_3d, analogous to the x version. -/
noncomputable def create_matrix_rotation_z_3d (angle : ℝ)
    (matrix : Option (Matrix (Fin 3) (Fin 3) ℝ)) : Matrix (Fin 3) (Fin 3) ℝ :=
  let rotation_z : Matrix (Fin 3) (Fin 3) ℝ :=
    !![Real.cos angle, -Real.sin angle, 0; Real.sin angle, Real.cos angle, 0; 0, 0, 1]
  match matrix with
  | none => rotation_z
  | some m => m * rotation_z

/-- create_matrix_rotation_2d: the standard 2x2 rotation matrix,
optionally multiplied on the left by a given matrix. -/
noncomputable def create_matrix_rotation_2d (angle : ℝ)
    (matrix : Option (Matrix (Fin 2) (Fin 2) ℝ)) : Matrix (Fin 2) (Fin 2) ℝ :=
  let rotation : Matrix (Fin 2) (Fin 2) ℝ :=
    !![Real.cos angle, -Real.sin angle; Real.sin angle, Real.cos angle]
  match matrix with
  | none => rotation
  | some m => m * rotation

/-- create_random_rotation with its three uniform draws modelled as
explicit angle inputs: the x helper applied to the y helper applied to
the z helper, each receiving the previously built matrix. -/
noncomputable def create_random_rotation (angle_x angle_y angle_z : ℝ) :
    Matrix (Fin 3) (Fin 3) ℝ :=
  create_matrix_rotation_x_3d angle_x
    (some (create_matrix_rotation_y_3d angle_y
      (some (create_matrix_rotation_z_3d angle_z none))))

/-- The rotation matrix built inside rotate_coords_3d: start from the
identity, then fold in the x, y and z helpers in that order. -/
noncomputable def rotate_coords_3d_matrix (angle_x angle_y angle_z : ℝ) :
    Matrix (Fin 3) (Fin 3) ℝ :=
  create_matrix_rotation_z_3d angle_z
    (some (create_matrix_rotation_y_3d angle_y
      (some (create_matrix_rotation_x_3d angle_x (some 1)))))

/-- rotate_coords_3d: the field of P coordinate vectors (columns), as a
3 x P matrix, is transposed, right-multiplied by the combined rotation
matrix, and transposed back (the reshape steps are the identity on this
flattened view). -/
noncomputable def rotate_coords_3d (P : ℕ) (coords : Matrix (Fin 3) (Fin P) ℝ)
    (angle_x angle_y angle_z : ℝ) : Matrix (Fin 3) (Fin P) ℝ :=
  (coords.transpose * rotate_coords_3d_matrix angle_x angle_y angle_z).transpose

/-- rotate_coords_2d: as rotate_coords_3d but with the single-angle 2x2
rotation matrix. -/
noncomputable def rotate_coords_2d (P : ℕ) (coords : Matrix (Fin 2) (Fin P) ℝ)
    (angle : ℝ) : Matrix (Fin 2) (Fin P) ℝ :=
  (coords.transpose * create_matrix_rotation_2d angle none).transpose

/-- C2 counterexample: at angles (pi/2, 0, pi/2) the matrix returned by
create_random_rotation differs from the combined matrix built by
rotate_coords_3d (their (0,1) entries are 0 and -1 respectively). -/
theorem C2_cex :
    create_random_rotation (Real.pi / 2) 0 (Real.pi / 2)
      ≠ rotate_coords_3d_matrix (Real.pi / 2) 0 (Real.pi / 2) := by
  intro h
  have h01 := congrFun (congrFun h 0) 1
  simp [create_random_rotation, rotate_coords_3d_matrix, create_matrix_rotation_x_3d,
    create_matrix_rotation_y_3d, create_matrix_rotation_z_3d, Matrix.mul_apply,
    Fin.sum_univ_three] at h01

/-- C2 amended: rotate_coords_3d does compose the three axis rotations in
the fixed order x then y then z, i.e. Rx * Ry * Rz; but
create_random_rotation (draws modelled as explicit angles) returns the
reverse composition Rz * Ry * Rx, which differs in general. -/
theorem C2_composition_order (angle_x angle_y angle_z : ℝ) :
    rotate_coords_3d_matrix angle_x angle_y angle_z
      = create_matrix_rotation_x_3d angle_x none
          * create_matrix_rotation_y_3d angle_y none
          * create_matrix_rotation_z_3d angle_z none ∧
    create_random_rotation angle_x angle_y angle_z
      = create_matrix_rotation_z_3d angle_z none
          * create_matrix_rotation_y_3d angle_y none
          * create_matrix_rotation_x_3d angle_x none := by
  constructor
  · simp only [rotate_coords_3d_matrix, create_matrix_rotation_x_3d,
      create_matrix_rotation_y_3d, create_matrix_rotation_z_3d, one_mul]
  · simp only [create_random_rotation, create_matrix_rotation_x_3d,
      create_matrix_rotation_y_3d, create_matrix_rotation_z_3d]

/-- C3 counterexample: for the single coordinate vector (1, 0) and angle
pi/2, the axis-1 output of rotate_coords_2d is -1, while the
matrix-vector product of the rotation matrix with (1, 0) has axis-1
entry 1: the implementation does not left-multiply by the matrix. -/
theorem C3_cex :
    rotate_coords_2d 1 !![1; 0] (Real.pi / 2) 1 0
      ≠ Matrix.mulVec (create_matrix_rotation_2d (Real.pi / 2) none) (fun k => !![(1 : ℝ); 0] k 0) 1 := by
  simp [rotate_coords_2d, create_matrix_rotation_2d, Matrix.mul_apply, Matrix.mulVec,
    Matrix.dotProduct, Fin.sum_univ_two]
  norm_num

/-- C3 amended: at each location p the output of rotate_coords_2d and
rotate_coords_3d is the matrix-vector product of the TRANSPOSE of the
composed rotation matrix with the coordinate vector at p (row-vector
convention), for every field and all angles. -/
theorem C3_rotate_applies_transpose (P : ℕ) (coords2 : Matrix (Fin 2) (Fin P) ℝ)
    (coords3 : Matrix (Fin 3) (Fin P) ℝ) (angle angle_x angle_y angle_z : ℝ)
    (d2 : Fin 2) (d3 : Fin 3) (p : Fin P) :
    rotate_coords_2d P coords2 angle d2 p
      = Matrix.mulVec (create_matrix_rotation_2d angle none).transpose (fun k => coords2 k p) d2 ∧
    rotate_coords_3d P coords3 angle_x angle_y angle_z d3 p
      = Matrix.mulVec (rotate_coords_3d_matrix angle_x angle_y angle_z).transpose
          (fun k => coords3 k p) d3 := by
  constructor <;>
    · simp only [rotate_coords_2d, rotate_coords_3d, Matrix.transpose_apply,
        Matrix.mul_apply, Matrix.mulVec, Matrix.dotProduct]
      exact Finset.sum_congr rfl fun k _ => mul_comm _ _

/-- numpy truncation toward zero, the C cast used when float values are
assigned into an integer array. -/
def npTrunc (q : ℚ) : ℤ := if 0 ≤ q then ⌊q⌋ else ⌈q⌉

/-- np.round: round half to even. -/
def npRound (q : ℚ) : ℤ :=
  if q - ⌊q⌋ = 1 / 2 then (if ⌊q⌋ % 2 = 0 then ⌊q⌋ else ⌊q⌋ + 1) else round q

/-- np.unique: the distinct values of the list, sorted ascending. -/
def np_unique (xs : List ℤ) : List ℤ := xs.toFinset.sort (· ≤ ·)

theorem np_unique_mem {xs : List ℤ} {x : ℤ} : x ∈ np_unique xs ↔ x ∈ xs := by
  simp [np_unique, Finset.mem_sort, List.mem_toFinset]

/-- Modelled from the spec: the external resize backend at interpolation
order 0 performs nearest-neighbor resampling, so every output element is
the input element at a nearest source index (flattened view, the source
index clamped into range). -/
def resize_nearest (seg : List ℤ) (newP : ℕ) : List ℤ :=
  (List.range newP).map (fun j => seg.getD (min (j * seg.length / newP) (seg.length - 1)) 0)

/-- The binary indicator channel (segmentation == c).astype(float). -/
def indicator_channel (seg : List ℤ) (c : ℤ) : List ℚ :=
  seg.map (fun v => if v = c then (1 : ℚ) else 0)

/-- Helper for np.argmax: running first maximal value and its index. -/
def argmaxGo : List ℚ → ℚ → ℕ → ℕ → ℕ
  | [], _, bi, _ => bi
  | x :: xs, bv, bi, i => if bv < x then argmaxGo xs x i (i + 1) else argmaxGo xs bv bi (i + 1)

/-- np.argmax over a vector: index of the first maximal entry. -/
def argmaxIdx : List ℚ → ℕ
  | [] => 0
  | x :: xs => argmaxGo xs x 0 1

theorem argmaxGo_lt (xs : List ℚ) : ∀ (bv : ℚ) (bi i : ℕ),
    argmaxGo xs bv bi i < i + xs.length ∨ argmaxGo xs bv bi i = bi := by
  induction xs with
  | nil => intro bv bi i; right; rfl
  | cons x xs ih =>
    intro bv bi i
    simp only [argmaxGo, List.length_cons]
    by_cases h : bv < x
    · rw [if_pos h]
      rcases ih x i (i + 1) with h1 | h1 <;> left <;> omega
    · rw [if_neg h]
      rcases ih bv bi (i + 1) with h1 | h1
      · left; omega
      · right; exact h1

theorem argmaxIdx_lt {xs : List ℚ} (h : xs ≠ []) : argmaxIdx xs < xs.length := by
  cases xs with
  | nil => exact absurd rfl h
  | cons x xs =>
    simp only [argmaxIdx, List.length_cons]
    rcases argmaxGo_lt xs x 0 1 with h1 | h1 <;> omega

/-- resize_segmentation: order 0 resizes the label map directly with the
nearest-neighbor backend; order > 0 builds one indicator channel per
distinct label, resizes each with the backend rsz, rounds, stacks, and
collapses with argmax back into the distinct-label list (then casts to
the input dtype, the identity in this integer model). newP is the
flattened size of the target shape. -/
def resize_segmentation (rsz : List ℚ → ℕ → List ℚ) (seg : List ℤ) (newP order : ℕ) :
    List ℤ :=
  let unique_labels := np_unique seg
  if order = 0 then
    resize_nearest seg newP
  else
    let reshaped_multihot : List (List ℚ) :=
      unique_labels.map (fun c =>
        (rsz (indicator_channel seg c) newP).map (fun q => (npRound q : ℚ)))
    (List.range newP).map (fun p =>
      unique_labels.getD (argmaxIdx (reshaped_multihot.map (fun row => row.getD p 0))) 0)

/-- C1: for every resize backend, every nonempty integer label map, every
flattened target size and every interpolation order, each element of the
output of resize_segmentation is one of the distinct values present in
the input map (and hence an input value, of the input value type). -/
theorem C1_resize_segmentation_label_safe (rsz : List ℚ → ℕ → List ℚ)
    (seg : List ℤ) (newP order : ℕ) (hseg : seg ≠ []) :
    ∀ x ∈ resize_segmentation rsz seg newP order, x ∈ np_unique seg ∧ x ∈ seg := by
  intro x hx
  have hlen : 0 < seg.length := List.length_pos.mpr hseg
  by_cases h0 : order = 0
  · simp only [resize_segmentation, h0, if_pos, List.mem_map, List.mem_range,
      resize_nearest] at hx
    obtain ⟨j, hj, rfl⟩ := hx
    have hidx : min (j * seg.length / newP) (seg.length - 1) < seg.length := by
      have h2 : seg.length - 1 < seg.length := by omega
      exact lt_of_le_of_lt (min_le_right _ _) h2
    rw [List.getD_eq_getElem _ _ hidx]
    exact ⟨np_unique_mem.mpr (List.getElem_mem hidx), List.getElem_mem hidx⟩
  · have hul : np_unique seg ≠ [] := by
      obtain ⟨y, hy⟩ := List.exists_mem_of_ne_nil seg hseg
      exact List.ne_nil_of_mem (np_unique_mem.mpr hy)
    simp only [resize_segmentation, if_neg h0, List.mem_map, List.mem_range] at hx
    obtain ⟨p, hp, rfl⟩ := hx
    have hcl : (((np_unique seg).map (fun c =>
        (rsz (indicator_channel seg c) newP).map (fun q => ((npRound q : ℤ) : ℚ)))).map
          (fun row => row.getD p 0)).length = (np_unique seg).length := by
      simp
    have hne : (((np_unique seg).map (fun c =>
        (rsz (indicator_channel seg c) newP).map (fun q => ((npRound q : ℤ) : ℚ)))).map
          (fun row => row.getD p 0)) ≠ [] := by
      intro hemp
      rw [← List.length_eq_zero] at hemp
      rw [hcl] at hemp
      exact hul (List.length_eq_zero.mp hemp)
    have hk := argmaxIdx_lt hne
    rw [hcl] at hk
    rw [List.getD_eq_getElem _ _ hk]
    exact ⟨List.getElem_mem hk, np_unique_mem.mp (List.getElem_mem hk)⟩

/-- C1 witness: the 3x3 label map of the spec scenario (values 0 and 1),
flattened, resized to 36 points at order 1 with a concrete backend: every
output value is one of the distinct input values. -/
theorem C1_resize_segmentation_witness :
    ([0, 0, 1, 0, 1, 1, 1, 1, 1] : List ℤ) ≠ [] ∧
    ∀ x ∈ resize_segmentation (fun ch n => List.replicate n (ch.headD 0))
        [0, 0, 1, 0, 1, 1, 1, 1, 1] 36 1,
      x ∈ np_unique [0, 0, 1, 0, 1, 1, 1, 1, 1] ∧
        x ∈ ([0, 0, 1, 0, 1, 1, 1, 1, 1] : List ℤ) :=
  ⟨by simp, C1_resize_segmentation_label_safe _ _ 36 1 (by simp)⟩

/-- numpy cast on assignment into a preallocated result array: truncation
toward zero when the array dtype is an integer type, identity when it is
a floating type. -/
def npCastTo (isInt : Bool) (q : ℚ) : ℚ := if isInt then ((npTrunc q : ℤ) : ℚ) else q

/-- resize_softmax_output: a result array with the INPUT dtype is
allocated with shape [C, *new_shape]; each channel, cast to float (the
identity on these rational values), is resized by the backend rsz and
assigned into the result row, numpy casting the values into the result
dtype. isInt records whether the input dtype is an integer type. -/
def resize_softmax_output (rsz : List ℚ → ℕ → List ℚ) (softmax_output : List (List ℚ))
    (newP : ℕ) (isInt : Bool) : List (List ℚ) :=
  softmax_output.map (fun ch => (rsz ch newP).map (npCastTo isInt))

/-- C7 counterexample: for an integer-dtype input (isInt = true) and a
backend returning the value 1/2 for the only channel, the output channel
is [0], not the real-valued resize [1/2]: the result keeps the integer
input dtype instead of being promoted to floating point. -/
theorem C7_cex :
    resize_softmax_output (fun _ _ => [(1 : ℚ) / 2]) [[0, 1]] 1 true
      ≠ [(fun (_ : List ℚ) (_ : ℕ) => [(1 : ℚ) / 2]) [0, 1] 1] := by
  simp only [resize_softmax_output, List.map_cons, List.map_nil, npCastTo, npTrunc]
  norm_num

/-- C7 amended: for every backend honoring the length contract, the
output has C rows of length newP, row i being the backend resize of input
channel i cast into the INPUT dtype (so channel order is preserved and,
for a floating input dtype, row i is exactly the resize of channel i; an
integer input dtype yields truncated integer values, with no promotion to
floating point). -/
theorem C7_resize_softmax_channelwise (rsz : List ℚ → ℕ → List ℚ)
    (softmax_output : List (List ℚ)) (newP : ℕ) (isInt : Bool)
    (hlen : ∀ ch, (rsz ch newP).length = newP) :
    (resize_softmax_output rsz softmax_output newP isInt).length = softmax_output.length ∧
    (∀ i, i < softmax_output.length →
      (resize_softmax_output rsz softmax_output newP isInt).getD i []
        = (rsz (softmax_output.getD i []) newP).map (npCastTo isInt) ∧
      ((resize_softmax_output rsz softmax_output newP isInt).getD i []).length = newP) ∧
    (isInt = false → ∀ i, i < softmax_output.length →
      (resize_softmax_output rsz softmax_output newP isInt).getD i []
        = rsz (softmax_output.getD i []) newP) := by
  have hmain : ∀ i, i < softmax_output.length →
      (resize_softmax_output rsz softmax_output newP isInt).getD i []
        = (rsz (softmax_output.getD i []) newP).map (npCastTo isInt) := by
    intro i hi
    have hi2 : i < (resize_softmax_output rsz softmax_output newP isInt).length := by
      simpa [resize_softmax_output] using hi
    rw [List.getD_eq_getElem _ _ hi2, List.getD_eq_getElem _ _ hi]
    simp [resize_softmax_output]
  refine ⟨by simp [resize_softmax_output], fun i hi => ⟨hmain i hi, ?_⟩, fun hflt i hi => ?_⟩
  · rw [hmain i hi]
    simp [hlen]
  · rw [hmain i hi, hflt]
    have hid : npCastTo false = fun q => q := by
      funext q
      simp [npCastTo]
    rw [hid]
    exact List.map_id' _

/-- C7 witness: a one-channel float-dtype input with a concrete backend
honoring the length contract; the theorem applies and gives the
channelwise description of the output. -/
theorem C7_resize_softmax_witness :
    (∀ ch : List ℚ, ((fun (ch : List ℚ) (_ : ℕ) => [ch.headD 0]) ch 1).length = 1) ∧
    ((resize_softmax_output (fun (ch : List ℚ) (_ : ℕ) => [ch.headD 0]) [[1]] 1 false).length
        = ([[1]] : List (List ℚ)).length ∧
      (∀ i, i < ([[1]] : List (List ℚ)).length →
        (resize_softmax_output (fun (ch : List ℚ) (_ : ℕ) => [ch.headD 0]) [[1]] 1 false).getD i []
          = ((fun (ch : List ℚ) (_ : ℕ) => [ch.headD 0]) (([[1]] : List (List ℚ)).getD i []) 1).map
              (npCastTo false) ∧
        ((resize_softmax_output (fun (ch : List ℚ) (_ : ℕ) => [ch.headD 0]) [[1]] 1 false).getD
            i []).length = 1) ∧
      (false = false → ∀ i, i < ([[1]] : List (List ℚ)).length →
        (resize_softmax_output (fun (ch : List ℚ) (_ : ℕ) => [ch.headD 0]) [[1]] 1 false).getD i []
          = (fun (ch : List ℚ) (_ : ℕ) => [ch.headD 0]) (([[1]] : List (List ℚ)).getD i []) 1)) :=
  ⟨fun _ => rfl,
    C7_resize_softmax_channelwise (fun (ch : List ℚ) (_ : ℕ) => [ch.headD 0]) [[1]] 1 false
      (fun _ => rfl)⟩

/-- np.min over the set of index values along one argwhere column (the
source raises on an empty set; 0 is returned there in the model, and the
theorems only use nonempty sets). -/
def npMin (s : Finset ℕ) : ℕ := s.min.untop' 0

/-- np.max over the set of index values along one argwhere column. -/
def npMax (s : Finset ℕ) : ℕ := s.max.unbot' 0

theorem npMin_mem {s : Finset ℕ} (h : s.Nonempty) : npMin s ∈ s := by
  rw [npMin, ← Finset.coe_min' h, WithTop.untop'_coe]
  exact Finset.min'_mem s h

theorem npMin_le {s : Finset ℕ} (h : s.Nonempty) {a : ℕ} (ha : a ∈ s) : npMin s ≤ a := by
  rw [npMin, ← Finset.coe_min' h, WithTop.untop'_coe]
  exact Finset.min'_le s a ha

theorem npMax_mem {s : Finset ℕ} (h : s.Nonempty) : npMax s ∈ s := by
  rw [npMax, ← Finset.coe_max' h, WithBot.unbot'_coe]
  exact Finset.max'_mem s h

theorem le_npMax {s : Finset ℕ} (h : s.Nonempty) {a : ℕ} (ha : a ∈ s) : a ≤ npMax s := by
  rw [npMax, ← Finset.coe_max' h, WithBot.unbot'_coe]
  exact Finset.le_max' s a ha

/-- np.sum(seg != 0) over the WHOLE batch tensor: the number of nonzero
entries across all samples. Within one sample the channel and spatial
axes are flattened into one finite index type ι. -/
def countNonzero {ι : Type} [Fintype ι] [DecidableEq ι] (B : ℕ)
    (seg : Fin B → ι → ℤ) : ℕ :=
  (Finset.univ.filter (fun p : Fin B × ι => seg p.1 p.2 ≠ 0)).card

/-- The candidate instance masks of sample b: one binary mask
(clusters == ii) * 1 per component label ii in 1..n_cands b, truncated to
the first n_max_gt entries (rois[:n_max_gt]). -/
def rois {ι : Type} [Fintype ι] [DecidableEq ι] (B : ℕ)
    (clusters : Fin B → ι → ℕ) (n_cands : Fin B → ℕ) (n_max_gt : ℕ) (b : Fin B) :
    List (ι → ℤ) :=
  ((List.range' 1 (n_cands b)).map
    (fun ii => fun q => if clusters b q = ii then (1 : ℤ) else 0)).take n_max_gt

/-- np.argwhere(r != 0): the set of indices where the mask is nonzero. -/
def seg_ixs {ι : Type} [Fintype ι] [DecidableEq ι] (r : ι → ℤ) : Finset ι :=
  Finset.univ.filter (fun q => r q ≠ 0)

/-- coord_list for one mask: [min ax2 - 1, min ax1 - 1, max ax2 + 1,
max ax1 + 1], and for dim = 3 additionally [min ax3 - 1, max ax3 + 1].
ax1, ax2, ax3 are the argwhere columns 1, 2, 3, i.e. the successive
spatial index coordinates of the sample array (column 0 is the channel
and is not used); for dim = 2 the projection ax3 is ignored. -/
def coord_list {ι : Type} [Fintype ι] [DecidableEq ι] (dim : ℕ)
    (ax1 ax2 ax3 : ι → ℕ) (r : ι → ℤ) : List ℤ :=
  [(npMin ((seg_ixs r).image ax2) : ℤ) - 1, (npMin ((seg_ixs r).image ax1) : ℤ) - 1,
    (npMax ((seg_ixs r).image ax2) : ℤ) + 1, (npMax ((seg_ixs r).image ax1) : ℤ) + 1]
  ++ (if dim = 3 then
        [(npMin ((seg_ixs r).image ax3) : ℤ) - 1, (npMax ((seg_ixs r).image ax3) : ℤ) + 1]
      else [])

/-- The three arrays returned by convert_seg_to_bounding_box_coordinates,
together with the diagnostic notices printed along the way. -/
structure BBoxResult (ι : Type) (B : ℕ) where
  bb_target : Fin B → ℕ → List ℤ
  roi_masks : Fin B → ℕ → (ι → ℤ)
  roi_class_ids : Fin B → ℕ → ℤ
  printed : List ℕ

/-- convert_seg_to_bounding_box_coordinates: three zero-initialized
output arrays; for each sample b, if the WHOLE batch tensor has a nonzero
entry, the component masks of sample b (as produced by the external
connected-component labeling oracle, passed in as clusters and n_cands)
are enumerated up to n_max_gt and their box row, instance mask and class
id (class label + 1) are written; otherwise a diagnostic notice naming
pid b is printed and the rows of b stay zero. -/
def convert_seg_to_bounding_box_coordinates {ι : Type} [Fintype ι] [DecidableEq ι]
    (B : ℕ) (seg : Fin B → ι → ℤ) (class_target : Fin B → ℤ) (pid : Fin B → ℕ)
    (dim : ℕ) (ax1 ax2 ax3 : ι → ℕ) (clusters : Fin B → ι → ℕ) (n_cands : Fin B → ℕ)
    (n_max_gt : ℕ) : BBoxResult ι B :=
  { bb_target := fun b rix =>
      if 0 < countNonzero B seg then
        match (rois B clusters n_cands n_max_gt b).get? rix with
        | some r => coord_list dim ax1 ax2 ax3 r
        | none => List.replicate (dim * 2) 0
      else List.replicate (dim * 2) 0,
    roi_masks := fun b rix =>
      if 0 < countNonzero B seg then
        ((rois B clusters n_cands n_max_gt b).get? rix).getD (fun _ => 0)
      else fun _ => 0,
    roi_class_ids := fun b rix =>
      if 0 < countNonzero B seg ∧ rix < (rois B clusters n_cands n_max_gt b).length then
        class_target b + 1
      else 0,
    printed := if 0 < countNonzero B seg then [] else (List.finRange B).map pid }

/-- The index set of the connected component with label ii in sample b. -/
def component {ι : Type} [Fintype ι] [DecidableEq ι] (B : ℕ)
    (clusters : Fin B → ι → ℕ) (b : Fin B) (ii : ℕ) : Finset ι :=
  Finset.univ.filter (fun q => clusters b q = ii)

theorem rois_length {ι : Type} [Fintype ι] [DecidableEq ι] (B : ℕ)
    (clusters : Fin B → ι → ℕ) (n_cands : Fin B → ℕ) (n_max_gt : ℕ) (b : Fin B) :
    (rois B clusters n_cands n_max_gt b).length = min n_max_gt (n_cands b) := by
  simp [rois]

theorem rois_get {ι : Type} [Fintype ι] [DecidableEq ι] (B : ℕ)
    (clusters : Fin B → ι → ℕ) (n_cands : Fin B → ℕ) (n_max_gt : ℕ) (b : Fin B)
    {rix : ℕ} (h1 : rix < n_cands b) (h2 : rix < n_max_gt) :
    (rois B clusters n_cands n_max_gt b).get? rix
      = some (fun q => if clusters b q = rix + 1 then (1 : ℤ) else 0) := by
  have hadd : 1 + 1 * rix = rix + 1 := by omega
  rw [rois, List.get?_eq_getElem?, List.getElem?_take_of_lt h2, List.getElem?_map,
    List.getElem?_range' _ _ h1, hadd]
  rfl

theorem seg_ixs_indicator {ι : Type} [Fintype ι] [DecidableEq ι] (f : ι → ℕ) (ii : ℕ) :
    seg_ixs (fun q => if f q = ii then (1 : ℤ) else 0)
      = Finset.univ.filter (fun q => f q = ii) := by
  apply Finset.filter_congr
  intro q _
  by_cases h : f q = ii <;> simp [h]

/-- C8: whenever the batch gate passes, for every sample b and every
retained component index rix (at most n_max_gt components are retained),
the instance mask row is the binary mask of component rix + 1, the class
id row is the sample class label plus 1, and the box row is
[min ax2 - 1, min ax1 - 1, max ax2 + 1, max ax1 + 1] over the component
index set (ax1, ax2 the two spatial coordinates), with the two bounds
[min ax3 - 1, max ax3 + 1] appended when dim = 3; the four (six) bounds
are genuine extreme index coordinates of the component: attained and
extremal. The labeling oracle satisfies its contract that every label in
1..n_cands b is attained. -/
theorem C8_bbox_rows {ι : Type} [Fintype ι] [DecidableEq ι] (B : ℕ)
    (seg : Fin B → ι → ℤ) (class_target : Fin B → ℤ) (pid : Fin B → ℕ)
    (dim : ℕ) (ax1 ax2 ax3 : ι → ℕ) (clusters : Fin B → ι → ℕ) (n_cands : Fin B → ℕ)
    (n_max_gt : ℕ)
    (hgate : 0 < countNonzero B seg)
    (hlab : ∀ (b : Fin B) (ii : ℕ), ii < n_cands b + 1 → 1 ≤ ii → ∃ q, clusters b q = ii) :
    ∀ (b : Fin B) (rix : ℕ), rix < min (n_cands b) n_max_gt →
      (rois B clusters n_cands n_max_gt b).length ≤ n_max_gt ∧
      (convert_seg_to_bounding_box_coordinates B seg class_target pid dim ax1 ax2 ax3
          clusters n_cands n_max_gt).roi_masks b rix
        = (fun q => if clusters b q = rix + 1 then (1 : ℤ) else 0) ∧
      (convert_seg_to_bounding_box_coordinates B seg class_target pid dim ax1 ax2 ax3
          clusters n_cands n_max_gt).roi_class_ids b rix = class_target b + 1 ∧
      (convert_seg_to_bounding_box_coordinates B seg class_target pid dim ax1 ax2 ax3
          clusters n_cands n_max_gt).bb_target b rix
        = [(npMin ((component B clusters b (rix + 1)).image ax2) : ℤ) - 1,
           (npMin ((component B clusters b (rix + 1)).image ax1) : ℤ) - 1,
           (npMax ((component B clusters b (rix + 1)).image ax2) : ℤ) + 1,
           (npMax ((component B clusters b (rix + 1)).image ax1) : ℤ) + 1]
          ++ (if dim = 3 then
                [(npMin ((component B clusters b (rix + 1)).image ax3) : ℤ) - 1,
                 (npMax ((component B clusters b (rix + 1)).image ax3) : ℤ) + 1]
              else []) ∧
      (∀ ax : ι → ℕ,
        (∃ q ∈ component B clusters b (rix + 1),
          ax q = npMin ((component B clusters b (rix + 1)).image ax)) ∧
        (∀ q ∈ component B clusters b (rix + 1),
          npMin ((component B clusters b (rix + 1)).image ax) ≤ ax q) ∧
        (∃ q ∈ component B clusters b (rix + 1),
          ax q = npMax ((component B clusters b (rix + 1)).image ax)) ∧
        (∀ q ∈ component B clusters b (rix + 1),
          ax q ≤ npMax ((component B clusters b (rix + 1)).image ax))) := by
  intro b rix hrix
  have h1 : rix < n_cands b := lt_of_lt_of_le hrix (min_le_left _ _)
  have h2 : rix < n_max_gt := lt_of_lt_of_le hrix (min_le_right _ _)
  have hget := rois_get B clusters n_cands n_max_gt b h1 h2
  have hSne : (component B clusters b (rix + 1)).Nonempty := by
    obtain ⟨q, hq⟩ := hlab b (rix + 1) (by omega) (by omega)
    exact ⟨q, by simp [component, hq]⟩
  refine ⟨?_, ?_, ?_, ?_, ?_⟩
  · rw [rois_length]
    exact min_le_left _ _
  · simp only [convert_seg_to_bounding_box_coordinates, if_pos hgate, hget, Option.getD_some]
  · have hlt : rix < (rois B clusters n_cands n_max_gt b).length := by
      rw [rois_length]
      omega
    simp only [convert_seg_to_bounding_box_coordinates, if_pos (And.intro hgate hlt)]
  · simp only [convert_seg_to_bounding_box_coordinates, if_pos hgate, hget]
    rw [coord_list, seg_ixs_indicator]
    rfl
  · intro ax
    have hIne : ((component B clusters b (rix + 1)).image ax).Nonempty :=
      hSne.image ax
    refine ⟨?_, ?_, ?_, ?_⟩
    · obtain ⟨q, hq, hq2⟩ := Finset.mem_image.mp (npMin_mem hIne)
      exact ⟨q, hq, hq2⟩
    · intro q hq
      exact npMin_le hIne (Finset.mem_image_of_mem ax hq)
    · obtain ⟨q, hq, hq2⟩ := Finset.mem_image.mp (npMax_mem hIne)
      exact ⟨q, hq, hq2⟩
    · intro q hq
      exact le_npMax hIne (Finset.mem_image_of_mem ax hq)

/-- Witness data: one sample, one channel, a 5x5 grid with a single 3x3
filled square at offset (1, 1) (the bounding-box spec scenario). -/
def segW : Fin 1 → Fin 1 × Fin 5 × Fin 5 → ℤ :=
  fun _ p => if 1 ≤ p.2.1 ∧ p.2.1 ≤ 3 ∧ 1 ≤ p.2.2 ∧ p.2.2 ≤ 3 then 1 else 0

/-- Witness data: the labeling of segW, a single component with label 1. -/
def clustersW : Fin 1 → Fin 1 × Fin 5 × Fin 5 → ℕ :=
  fun _ p => if 1 ≤ p.2.1 ∧ p.2.1 ≤ 3 ∧ 1 ≤ p.2.2 ∧ p.2.2 ≤ 3 then 1 else 0

/-- C8 witness: the theorem applied to the concrete 3x3-square batch. -/
theorem C8_bbox_witness :
    0 < countNonzero 1 segW ∧
    (∀ (b : Fin 1) (ii : ℕ), ii < 1 + 1 → 1 ≤ ii → ∃ q, clustersW b q = ii) ∧
    (∀ (b : Fin 1) (rix : ℕ), rix < min 1 3 →
      (rois 1 clustersW (fun _ => 1) 3 b).length ≤ 3 ∧
      (convert_seg_to_bounding_box_coordinates 1 segW (fun _ => 2) (fun _ => 7) 2
          (fun p => (p.2.1 : ℕ)) (fun p => (p.2.2 : ℕ)) (fun _ => 0) clustersW
          (fun _ => 1) 3).roi_masks b rix
        = (fun q => if clustersW b q = rix + 1 then (1 : ℤ) else 0) ∧
      (convert_seg_to_bounding_box_coordinates 1 segW (fun _ => 2) (fun _ => 7) 2
          (fun p => (p.2.1 : ℕ)) (fun p => (p.2.2 : ℕ)) (fun _ => 0) clustersW
          (fun _ => 1) 3).roi_class_ids b rix = 2 + 1 ∧
      (convert_seg_to_bounding_box_coordinates 1 segW (fun _ => 2) (fun _ => 7) 2
          (fun p => (p.2.1 : ℕ)) (fun p => (p.2.2 : ℕ)) (fun _ => 0) clustersW
          (fun _ => 1) 3).bb_target b rix
        = [(npMin ((component 1 clustersW b (rix + 1)).image (fun p => (p.2.2 : ℕ))) : ℤ) - 1,
           (npMin ((component 1 clustersW b (rix + 1)).image (fun p => (p.2.1 : ℕ))) : ℤ) - 1,
           (npMax ((component 1 clustersW b (rix + 1)).image (fun p => (p.2.2 : ℕ))) : ℤ) + 1,
           (npMax ((component 1 clustersW b (rix + 1)).image (fun p => (p.2.1 : ℕ))) : ℤ) + 1]
          ++ (if 2 = 3 then
                [(npMin ((component 1 clustersW b (rix + 1)).image (fun _ => 0)) : ℤ) - 1,
                 (npMax ((component 1 clustersW b (rix + 1)).image (fun _ => 0)) : ℤ) + 1]
              else []) ∧
      (∀ ax : Fin 1 × Fin 5 × Fin 5 → ℕ,
        (∃ q ∈ component 1 clustersW b (rix + 1),
          ax q = npMin ((component 1 clustersW b (rix + 1)).image ax)) ∧
        (∀ q ∈ component 1 clustersW b (rix + 1),
          npMin ((component 1 clustersW b (rix + 1)).image ax) ≤ ax q) ∧
        (∃ q ∈ component 1 clustersW b (rix + 1),
          ax q = npMax ((component 1 clustersW b (rix + 1)).image ax)) ∧
        (∀ q ∈ component 1 clustersW b (rix + 1),
          ax q ≤ npMax ((component 1 clustersW b (rix + 1)).image ax)))) :=
  ⟨by decide, by decide,
    C8_bbox_rows 1 segW (fun _ => 2) (fun _ => 7) 2
      (fun p => (p.2.1 : ℕ)) (fun p => (p.2.2 : ℕ)) (fun _ => 0) clustersW
      (fun _ => 1) 3 (by decide) (by decide)⟩

/-- C9: the gate is the batch-wide nonzero test, so all samples share its
outcome: when the whole batch tensor is zero (countNonzero = 0, i.e.
every entry of every sample is zero), every sample is skipped without
raising, a diagnostic notice naming each skipped sample identifier is
emitted, and all bounding-box, instance-mask and class-id rows of every
sample stay zero. -/
theorem C9_batch_wide_gate {ι : Type} [Fintype ι] [DecidableEq ι] (B : ℕ)
    (seg : Fin B → ι → ℤ) (class_target : Fin B → ℤ) (pid : Fin B → ℕ)
    (dim : ℕ) (ax1 ax2 ax3 : ι → ℕ) (clusters : Fin B → ι → ℕ) (n_cands : Fin B → ℕ)
    (n_max_gt : ℕ) (hz : countNonzero B seg = 0) :
    (∀ q : Fin B × ι, seg q.1 q.2 = 0) ∧
    (∀ (b : Fin B) (rix : ℕ),
      (convert_seg_to_bounding_box_coordinates B seg class_target pid dim ax1 ax2 ax3
          clusters n_cands n_max_gt).bb_target b rix = List.replicate (dim * 2) 0 ∧
      (convert_seg_to_bounding_box_coordinates B seg class_target pid dim ax1 ax2 ax3
          clusters n_cands n_max_gt).roi_masks b rix = (fun _ => 0) ∧
      (convert_seg_to_bounding_box_coordinates B seg class_target pid dim ax1 ax2 ax3
          clusters n_cands n_max_gt).roi_class_ids b rix = 0) ∧
    (convert_seg_to_bounding_box_coordinates B seg class_target pid dim ax1 ax2 ax3
        clusters n_cands n_max_gt).printed = (List.finRange B).map pid ∧
    (∀ b : Fin B, pid b ∈ (convert_seg_to_bounding_box_coordinates B seg class_target pid
        dim ax1 ax2 ax3 clusters n_cands n_max_gt).printed) := by
  have hng : ¬ 0 < countNonzero B seg := by omega
  have hzero : ∀ q : Fin B × ι, seg q.1 q.2 = 0 := by
    intro q
    by_contra hq
    have hmem : q ∈ Finset.univ.filter (fun p : Fin B × ι => seg p.1 p.2 ≠ 0) := by
      simp [hq]
    have := Finset.card_pos.mpr ⟨q, hmem⟩
    rw [countNonzero] at hz
    omega
  refine ⟨hzero, fun b rix => ⟨?_, ?_, ?_⟩, ?_, fun b => ?_⟩
  · simp only [convert_seg_to_bounding_box_coordinates, if_neg hng]
  · simp only [convert_seg_to_bounding_box_coordinates, if_neg hng]
  · simp only [convert_seg_to_bounding_box_coordinates]
    rw [if_neg]
    intro hc
    exact hng hc.1
  · simp only [convert_seg_to_bounding_box_coordinates, if_neg hng]
  · simp only [convert_seg_to_bounding_box_coordinates, if_neg hng]
    exact List.mem_map_of_mem pid (List.mem_finRange b)

/-- C9 witness: an all-zero two-sample batch with identifiers 7 and 9;
the theorem applies and both identifiers appear in the diagnostics. -/
theorem C9_batch_wide_gate_witness :
    countNonzero 2 (fun (_ : Fin 2) (_ : Fin 1) => (0 : ℤ)) = 0 ∧
    ((∀ q : Fin 2 × Fin 1, (fun (_ : Fin 2) (_ : Fin 1) => (0 : ℤ)) q.1 q.2 = 0) ∧
    (∀ (b : Fin 2) (rix : ℕ),
      (convert_seg_to_bounding_box_coordinates 2 (fun (_ : Fin 2) (_ : Fin 1) => (0 : ℤ)) (fun _ => 5)
          (fun b : Fin 2 => if b = 0 then 7 else 9) 2 (fun _ => 0) (fun _ => 0) (fun _ => 0)
          (fun _ _ => 0) (fun _ => 0) 3).bb_target b rix = List.replicate (2 * 2) 0 ∧
      (convert_seg_to_bounding_box_coordinates 2 (fun (_ : Fin 2) (_ : Fin 1) => (0 : ℤ)) (fun _ => 5)
          (fun b : Fin 2 => if b = 0 then 7 else 9) 2 (fun _ => 0) (fun _ => 0) (fun _ => 0)
          (fun _ _ => 0) (fun _ => 0) 3).roi_masks b rix = (fun _ => 0) ∧
      (convert_seg_to_bounding_box_coordinates 2 (fun (_ : Fin 2) (_ : Fin 1) => (0 : ℤ)) (fun _ => 5)
          (fun b : Fin 2 => if b = 0 then 7 else 9) 2 (fun _ => 0) (fun _ => 0) (fun _ => 0)
          (fun _ _ => 0) (fun _ => 0) 3).roi_class_ids b rix = 0) ∧
    (convert_seg_to_bounding_box_coordinates 2 (fun (_ : Fin 2) (_ : Fin 1) => (0 : ℤ)) (fun _ => 5)
        (fun b : Fin 2 => if b = 0 then 7 else 9) 2 (fun _ => 0) (fun _ => 0) (fun _ => 0)
        (fun _ _ => 0) (fun _ => 0) 3).printed
      = (List.finRange 2).map (fun b : Fin 2 => if b = 0 then 7 else 9) ∧
    (∀ b : Fin 2, (fun b : Fin 2 => if b = 0 then 7 else 9) b
      ∈ (convert_seg_to_bounding_box_coordinates 2 (fun (_ : Fin 2) (_ : Fin 1) => (0 : ℤ)) (fun _ => 5)
          (fun b : Fin 2 => if b = 0 then 7 else 9) 2 (fun _ => 0) (fun _ => 0) (fun _ => 0)
          (fun _ _ => 0) (fun _ => 0) 3).printed)) :=
  ⟨by decide,
    C9_batch_wide_gate 2 (fun (_ : Fin 2) (_ : Fin 1) => (0 : ℤ)) (fun _ => 5) (fun b : Fin 2 => if b = 0 then 7 else 9) 2
      (fun _ => 0) (fun _ => 0) (fun _ => 0) (fun _ _ => 0) (fun _ => 0) 3 (by decide)⟩

/-- C10: when sample b is entirely zero but the batch tensor has a
nonzero entry elsewhere, sample b passes the batch-wide gate and is
processed: under the labeling-oracle contract (labels sit on nonzero
pixels and every label in 1..n_cands b is attained) the labeling of b has
zero components, so the bounding-box, instance-mask and class-id rows of
b stay zero and no diagnostic notice is emitted at all. -/
theorem C10_zero_sample_in_nonzero_batch {ι : Type} [Fintype ι] [DecidableEq ι] (B : ℕ)
    (seg : Fin B → ι → ℤ) (class_target : Fin B → ℤ) (pid : Fin B → ℕ)
    (dim : ℕ) (ax1 ax2 ax3 : ι → ℕ) (clusters : Fin B → ι → ℕ) (n_cands : Fin B → ℕ)
    (n_max_gt : ℕ) (b : Fin B)
    (hb : ∀ q : ι, seg b q = 0)
    (hsome : 0 < countNonzero B seg)
    (hcl : ∀ q : ι, clusters b q ≠ 0 → seg b q ≠ 0)
    (hlab : ∀ ii : ℕ, ii < n_cands b + 1 → 1 ≤ ii → ∃ q, clusters b q = ii) :
    n_cands b = 0 ∧
    (∀ rix : ℕ,
      (convert_seg_to_bounding_box_coordinates B seg class_target pid dim ax1 ax2 ax3
          clusters n_cands n_max_gt).bb_target b rix = List.replicate (dim * 2) 0 ∧
      (convert_seg_to_bounding_box_coordinates B seg class_target pid dim ax1 ax2 ax3
          clusters n_cands n_max_gt).roi_masks b rix = (fun _ => 0) ∧
      (convert_seg_to_bounding_box_coordinates B seg class_target pid dim ax1 ax2 ax3
          clusters n_cands n_max_gt).roi_class_ids b rix = 0) ∧
    (convert_seg_to_bounding_box_coordinates B seg class_target pid dim ax1 ax2 ax3
        clusters n_cands n_max_gt).printed = [] := by
  have hnc : n_cands b = 0 := by
    by_contra h
    obtain ⟨q, hq⟩ := hlab 1 (by omega) (by omega)
    exact hcl q (by rw [hq]; exact one_ne_zero) (hb q)
  have hrois : rois B clusters n_cands n_max_gt b = [] := by
    simp [rois, hnc]
  refine ⟨hnc, fun rix => ⟨?_, ?_, ?_⟩, ?_⟩
  · simp only [convert_seg_to_bounding_box_coordinates, if_pos hsome, hrois,
      List.get?_eq_getElem?, List.getElem?_nil]
  · simp only [convert_seg_to_bounding_box_coordinates, if_pos hsome, hrois,
      List.get?_eq_getElem?, List.getElem?_nil, Option.getD_none]
  · simp only [convert_seg_to_bounding_box_coordinates, hrois, List.length_nil]
    rw [if_neg]
    intro hc
    omega
  · simp only [convert_seg_to_bounding_box_coordinates, if_pos hsome]

/-- Witness data: two one-pixel samples, sample 0 zero, sample 1 set. -/
def seg10 : Fin 2 → Fin 1 → ℤ := fun b _ => if b = 1 then 1 else 0

/-- Witness data: the labeling of seg10 (one component in sample 1). -/
def clusters10 : Fin 2 → Fin 1 → ℕ := fun b _ => if b = 1 then 1 else 0

/-- Witness data: component counts reported by the oracle for seg10. -/
def ncands10 : Fin 2 → ℕ := fun b => if b = 1 then 1 else 0

/-- C10 witness: the theorem applied to the concrete batch in which
sample 0 is zero and sample 1 is not. -/
theorem C10_zero_sample_witness :
    (∀ q : Fin 1, seg10 0 q = 0) ∧
    0 < countNonzero 2 seg10 ∧
    (∀ q : Fin 1, clusters10 0 q ≠ 0 → seg10 0 q ≠ 0) ∧
    (∀ ii : ℕ, ii < ncands10 0 + 1 → 1 ≤ ii → ∃ q, clusters10 0 q = ii) ∧
    (ncands10 0 = 0 ∧
    (∀ rix : ℕ,
      (convert_seg_to_bounding_box_coordinates 2 seg10 (fun _ => 4) (fun _ => 8) 2
          (fun _ => 0) (fun _ => 0) (fun _ => 0) clusters10 ncands10 3).bb_target 0 rix
        = List.replicate (2 * 2) 0 ∧
      (convert_seg_to_bounding_box_coordinates 2 seg10 (fun _ => 4) (fun _ => 8) 2
          (fun _ => 0) (fun _ => 0) (fun _ => 0) clusters10 ncands10 3).roi_masks 0 rix
        = (fun _ => 0) ∧
      (convert_seg_to_bounding_box_coordinates 2 seg10 (fun _ => 4) (fun _ => 8) 2
          (fun _ => 0) (fun _ => 0) (fun _ => 0) clusters10 ncands10 3).roi_class_ids 0 rix
        = 0) ∧
    (convert_seg_to_bounding_box_coordinates 2 seg10 (fun _ => 4) (fun _ => 8) 2
        (fun _ => 0) (fun _ => 0) (fun _ => 0) clusters10 ncands10 3).printed = []) :=
  ⟨by decide, by decide, by decide, by decide,
    C10_zero_sample_in_nonzero_batch 2 seg10 (fun _ => 4) (fun _ => 8) 2
      (fun _ => 0) (fun _ => 0) (fun _ => 0) clusters10 ncands10 3 0
      (by decide) (by decide) (by decide) (by decide)⟩
